import Mathlib

/-!
# protocolreg: registration of a desktop application as a URL-protocol handler (Linux)

A shallow embedding of `linux.go` and a verification of its specification.

* Go strings are Lean `String`s.  Every byte the program inspects (`%`, `u`, `U`, `/`, `.`)
  is ASCII, so on UTF-8 text the byte-level operations of Go and the character-level
  operations used here agree.
* A Go function that mutates a `*ini.File` and returns an `error` is a function from the
  document to the mutated document and the returned error.
* Of package `gopkg.in/ini.v1` the model covers what the program relies on: sections and
  keys in order, how `ini.Load` with default options reads the value of a key line
  (quotes, a trailing backslash, the cut at an inline `;` or `#` comment) and how
  `(*Key).String` expands `%(name)s`.
* A run-time panic (index out of range, nil dereference) is an explicit outcome.
* The file system, the environment and the external commands are an explicit `World`
  that the operations pass along; failures the modelled state does not determine
  (permissions, full disk, a missing tool) come from a `Host` oracle.
-/

namespace Protocolreg

/-! ## Go standard library: strings and paths -/

/-- Go `strings.HasPrefix` on character lists. -/
def hasPrefixChars : List Char → List Char → Bool
  | _, [] => true
  | [], _ :: _ => false
  | c :: cs, d :: ds => c == d && hasPrefixChars cs ds

/-- Go `strings.Contains` on character lists: some suffix of `s` starts with `sub`. -/
def containsChars : List Char → List Char → Bool
  | [], sub => hasPrefixChars [] sub
  | c :: cs, sub => hasPrefixChars (c :: cs) sub || containsChars cs sub

/-- Go `strings.Contains(s, substr)`. -/
def strContains (s substr : String) : Bool :=
  containsChars s.data substr.data

/-- Go `strings.Join(elems, sep)`. -/
def strJoin (elems : List String) (sep : String) : String :=
  sep.intercalate elems

/-- The elements of a path between its slashes (an empty path has one empty element). -/
def splitSlash : List Char → List (List Char)
  | [] => [[]]
  | c :: cs =>
    match splitSlash cs with
    | [] => if c = '/' then [[], []] else [[c]]
    | hd :: tl => if c = '/' then [] :: hd :: tl else (c :: hd) :: tl

/-- One step of Go `path.Clean` over the elements of a path; `out` is the output so far,
last element first.  Empty and `.` elements are dropped; `..` removes the element before
it when there is one to remove, is dropped at the root of a rooted path, and is kept
otherwise. -/
def cleanStep (rooted : Bool) (out : List (List Char)) (el : List Char) : List (List Char) :=
  if el = [] then out
  else if el = ['.'] then out
  else if el = ['.', '.'] then
    match out with
    | top :: rest => if top = ['.', '.'] then el :: out else rest
    | [] => if rooted then [] else [el]
  else el :: out

/-- Go `path.Clean`. -/
def pathClean (path : String) : String :=
  if path = "" then "."
  else
    let rooted := hasPrefixChars path.data ['/']
    let out := ((splitSlash path.data).foldl (cleanStep rooted) []).reverse
    let body := "/".intercalate (out.map String.mk)
    let res := if rooted then "/" ++ body else body
    if res = "" then "." else res

/-- Go `path.Join`: the non-empty elements joined with slashes, then cleaned; the empty
string when every element is empty. -/
def pathJoin (elem : List String) : String :=
  match elem.filter (fun e => e ≠ "") with
  | [] => ""
  | es => pathClean ("/".intercalate es)

/-! ## Errors and outcomes -/

/-- Go `error` values the program can return or inspect. -/
inductive Err where
  /-- An error made by `fmt.Errorf` or `errors.New`, with its message. -/
  | msg (text : String)
  /-- The error of `os.Remove` or `ini.Load` on a path that names no file. -/
  | notExist (path : String)
  /-- The error `ini.ErrDelimiterNotFound`, made only by the ini parser for a line
  without a key-value delimiter. -/
  | delimiterNotFound (line : String)
  /-- A failure of the host (file system or external process), identified by a code. -/
  | host (code : Nat)
  deriving DecidableEq, Repr

/-- Run-time panics of the Go program. -/
inductive Panic where
  | indexOutOfRange
  | nilDereference
  deriving DecidableEq, Repr

/-- How a call of a function returning `error` ends: it returns `nil`, returns an
error, or panics. -/
inductive Ret where
  | nil
  | err (e : Err)
  | panic (p : Panic)
  deriving DecidableEq, Repr

/-! ## The ini document (package `gopkg.in/ini.v1`, used as a key/value section store) -/

/-- A key of a section: its name and its stored value. -/
structure Key where
  Name : String
  Value : String
  deriving DecidableEq, Repr

/-- A section: its name and its keys in `keyList` order. -/
structure Section where
  Name : String
  Keys : List Key
  deriving DecidableEq, Repr

/-- An ini document: its sections in `sectionList` order. -/
structure IniFile where
  Sections : List Section
  deriving DecidableEq, Repr

/-- The name of the section every document has: `ini.DefaultSection`. -/
def DefaultSection : String := "DEFAULT"

/-- Go `ini.Empty`: a document holding only the default section. -/
def IniFile.Empty : IniFile := ⟨[⟨DefaultSection, []⟩]⟩

/-- Go `(*File).NewSection`: an empty name is an error; a section that exists is
returned as it is; a new one is appended.  The section is referred to by its name. -/
def IniFile.NewSection (f : IniFile) (name : String) : IniFile × Option Err :=
  if name.length = 0 then (f, some (.msg "empty section name"))
  else if f.Sections.any (fun s => s.Name == name) then (f, none)
  else (⟨f.Sections ++ [⟨name, []⟩]⟩, none)

/-- Keys of a section after `NewKey name val`: an existing key takes the new value in
place, a new key is appended. -/
def setKey (keys : List Key) (name val : String) : List Key :=
  if keys.any (fun k => k.Name == name) then
    keys.map (fun k => if k.Name = name then ⟨name, val⟩ else k)
  else keys ++ [⟨name, val⟩]

/-- Apply `g` to the first section called `name`, the one a section pointer obtained
for that name refers to. -/
def modifySection (g : Section → Section) (name : String) : List Section → List Section
  | [] => []
  | s :: ss => if s.Name = name then g s :: ss else s :: modifySection g name ss

/-- Go `(*Section).NewKey` on the section called `sec` of the document: an empty key
name is an error; otherwise the key is set. -/
def IniFile.NewKey (f : IniFile) (sec name val : String) : IniFile × Option Err :=
  if name.length = 0 then (f, some (.msg "error creating new key: empty key name"))
  else (⟨modifySection (fun s => ⟨s.Name, setKey s.Keys name val⟩) sec f.Sections⟩, none)

/-- Go `(*File).GetSection`: the first section with that name (the default section for
the empty name), or an error made by `fmt.Errorf` when there is none. -/
def IniFile.GetSection (f : IniFile) (name : String) : Option Section × Option Err :=
  let name := if name.length = 0 then DefaultSection else name
  match f.Sections.find? (fun s => s.Name == name) with
  | some s => (some s, none)
  | none => (none, some (.msg ("section \"" ++ name ++ "\" does not exist")))

/-- Go `ini.IsErrDelimiterNotFound`. -/
def IsErrDelimiterNotFound : Option Err → Bool
  | some (.delimiterNotFound _) => true
  | _ => false

/-- Key list after `(*Section).DeleteKey`: the first key with that name is removed. -/
def deleteKey : List Key → String → List Key
  | [], _ => []
  | k :: ks, name => if k.Name = name then ks else k :: deleteKey ks name

/-- Go `(*Section).DeleteKey` on the section called `sec` of the document. -/
def IniFile.DeleteKey (f : IniFile) (sec name : String) : IniFile :=
  ⟨modifySection (fun s => ⟨s.Name, deleteKey s.Keys name⟩) sec f.Sections⟩

/-! ### Values with variables: `(*Key).String` -/

/-- The names of the parent sections of a section name given last character first:
the name cut at its last dot, that one cut at its last dot, and so on (the default
`ChildSectionDelimiter` is the dot). -/
def parentNames : List Char → List String
  | [] => []
  | c :: cs => if c = '.' then String.mk cs.reverse :: parentNames cs else parentNames cs

/-- Go `(*Section).GetKey`: the key of that name in the section; when the section has
none, the same search in the nearest parent section that exists. -/
def Section.GetKey (f : IniFile) (s : Section) (name : String) : Option Key :=
  (s :: (parentNames s.Name.data.reverse).filterMap (fun n => (f.GetSection n).1)).findSome?
    (fun sec => sec.Keys.find? (fun k => k.Name == name))

/-- The name inside a variable `%(name)s` at the very start of the text, if the text
starts with one: `%(`, one or more characters other than `)`, then `)s`. -/
def varAt : List Char → Option (List Char)
  | '%' :: '(' :: rest =>
    let name := rest.takeWhile (fun c => c ≠ ')')
    match name, rest.dropWhile (fun c => c ≠ ')') with
    | _ :: _, ')' :: 's' :: _ => some name
    | _, _ => none
  | _ => none

/-- The name inside the leftmost variable of the text: the match `FindString` returns
for the pattern `%\(([^)]+)\)s`, without its `%(` and `)s`. -/
def findVar : List Char → Option (List Char)
  | [] => none
  | c :: cs =>
    match varAt (c :: cs) with
    | some name => some name
    | none => findVar cs

/-- Go `strings.Replace(s, old, new, -1)` for a non-empty `old`, on character lists;
`skip` counts the characters of a replaced occurrence still to pass over. -/
def replaceAllAux (old new : List Char) : Nat → List Char → List Char
  | _, [] => []
  | skip + 1, _ :: cs => replaceAllAux old new skip cs
  | 0, c :: cs =>
    if hasPrefixChars (c :: cs) old then new ++ replaceAllAux old new (old.length - 1) cs
    else c :: replaceAllAux old new 0 cs

/-- Go `strings.Replace(s, old, new, -1)` for a non-empty `old`. -/
def replaceAll (s old new : String) : String :=
  String.mk (replaceAllAux old.data new.data 0 s.data)

/-- The key a variable of key `k` in section `s` stands for: the key of that name in the
section (or its parents); when there is none, or when it is `k` itself, the key of that
name in the default section. -/
def lookupVar (f : IniFile) (s : Section) (k : Key) (name : String) : Option Key :=
  let inDefault :=
    match (f.GetSection "").1 with
    | some d => d.GetKey f name
    | none => none
  match s.GetKey f name with
  | none => inDefault
  | some nk =>
    if (s.Keys.find? (fun x => x.Name == name)).isSome && name = k.Name then inDefault
    else some nk

/-- The loop of `(*Key).transformValue`, `depth` rounds of it: the leftmost variable is
looked up and every occurrence of it replaced by the value of the key found; the loop
stops when there is no variable or no key for it. -/
def expandVars (f : IniFile) (s : Section) (k : Key) : Nat → String → String
  | 0, val => val
  | depth + 1, val =>
    match findVar val.data with
    | none => val
    | some name =>
      match lookupVar f s k (String.mk name) with
      | none => val
      | some nk =>
        expandVars f s k depth (replaceAll val ("%(" ++ String.mk name ++ ")s") nk.Value)

/-- Go `(*Key).String` for key `k` of section `s` of document `f`: the stored value
with its `%(name)s` variables expanded, to a depth of 99 (`depthValues`). -/
def Key.StringOf (k : Key) (f : IniFile) (s : Section) : String :=
  if !strContains k.Value "%" then k.Value
  else expandVars f s k 99 k.Value

/-! ### Reading the value of a key line: `ini.Load` with default options -/

/-- Go `unicode.IsSpace`. -/
def isSpace (c : Char) : Bool :=
  let n := c.toNat
  (9 ≤ n && n ≤ 13) || n = 0x20 || n = 0x85 || n = 0xa0 || n = 0x1680 ||
    (0x2000 ≤ n && n ≤ 0x200a) || n = 0x2028 || n = 0x2029 || n = 0x202f || n = 0x205f ||
    n = 0x3000

/-- Go `strings.TrimLeftFunc(s, unicode.IsSpace)`. -/
def trimLeft (s : List Char) : List Char := s.dropWhile isSpace

/-- Go `strings.TrimSpace`. -/
def trimSpace (s : List Char) : List Char :=
  ((trimLeft s).reverse.dropWhile isSpace).reverse

/-- The double quote, the single quote, the back quote and the backslash. -/
def doubleQuote : Char := Char.ofNat 34

def singleQuote : Char := Char.ofNat 39

def backQuote : Char := Char.ofNat 96

def backslash : Char := Char.ofNat 92

/-- The text before the last occurrence of `sub`: `s[:strings.LastIndex(s, sub)]`, or
`none` when `sub` does not occur. -/
def beforeLast (sub : List Char) : List Char → Option (List Char)
  | [] => none
  | c :: cs =>
    match beforeLast sub cs with
    | some pre => some (c :: pre)
    | none => if hasPrefixChars (c :: cs) sub then some [] else none

/-- Go `hasSurroundedQuote` of ini.v1: at least two characters, the first is the quote
and the next quote is the last character. -/
def hasSurroundedQuote (s : List Char) (quote : Char) : Bool :=
  match s with
  | [] => false
  | c :: rest =>
    c == quote && (rest.takeWhile (fun x => x ≠ quote)).length + 1 == rest.length

/-- Go `(*parser).readValue` of ini.v1 under the default `LoadOptions`, on the text to
the right of the delimiter of a key line.  A value in triple double quotes or back
quotes is the text up to the last closing quote.  Otherwise the text is trimmed; a
trailing backslash (a continuation) is dropped; else the text is cut at the first `#`
or `;` (an inline comment) and trimmed again, and one pair of surrounding single or
double quotes is removed.  `none`: the value opens a quote that the line does not
close, and the load fails unless a later line closes it.  Key lines merged by a
continuation or by a quote closed on a later line are not expressed by separate key
lines. -/
def readValue (raw : String) : Option String :=
  let line := trimLeft raw.data
  if line = [] then some ""
  else
    let valQuote : List Char :=
      if line.length > 3 && line.take 3 = [doubleQuote, doubleQuote, doubleQuote] then
        [doubleQuote, doubleQuote, doubleQuote]
      else if line.head? = some backQuote then [backQuote]
      else []
    if valQuote ≠ [] then
      (beforeLast valQuote (line.drop valQuote.length)).map String.mk
    else
      let line := trimSpace line
      if line.getLast? = some backslash then some (String.mk line.dropLast)
      else
        let line := trimSpace (line.takeWhile (fun c => c ≠ '#' && c ≠ ';'))
        if hasSurroundedQuote line singleQuote || hasSurroundedQuote line doubleQuote then
          some (String.mk (line.drop 1).dropLast)
        else some (String.mk line)

/-- The parser's work on the key lines under one section header: the section is
created (or found), and each key line sets its key to the value read. -/
def loadSection (f : IniFile) (s : Section) : Option IniFile :=
  match f.NewSection s.Name with
  | (_, some _) => none
  | (f, none) =>
    s.Keys.foldl (fun acc k => acc.bind (fun f =>
      match readValue k.Value with
      | none => none
      | some value =>
        match f.NewKey s.Name k.Name value with
        | (_, some _) => none
        | (f, none) => some f)) (some f)

/-- The document `ini.Load` with default options makes of the key lines of a file,
given under their section headers with the text right of the delimiter as value;
`none` when parsing fails. -/
def loadDocument (lines : IniFile) : Option IniFile :=
  lines.Sections.foldl (fun acc s => acc.bind (fun f => loadSection f s)) (some IniFile.Empty)

/-! ## Options (`linux.go`) -/

structure LinuxOpenQuickPreview where
  Name : String
  Exec : String
  TryExec : String
  NoDisplay : Bool
  deriving DecidableEq, Repr

structure LinuxOpenWithTerminal where
  Name : String
  Exec : String
  deriving DecidableEq, Repr

structure LinuxMetadataOptions where
  Name : String
  Comment : String
  Icon : String
  Categories : List String
  deriving DecidableEq, Repr

structure LinuxOptions where
  Metadata : LinuxMetadataOptions
  Exec : String
  Protocols : List String
  Mimetypes : List String
  OpenWithTerminal : LinuxOpenWithTerminal
  OpenQuickPreview : LinuxOpenQuickPreview
  NoUrlArgNecessary : Bool
  deriving DecidableEq, Repr

/-- Go `fmt.Sprint` of a `bool`. -/
def sprintBool (b : Bool) : String := if b then "true" else "false"

/-- Go `LinuxOpenQuickPreview.WriteTo`. -/
def LinuxOpenQuickPreview.WriteTo (opts : LinuxOpenQuickPreview) (f : IniFile) :
    IniFile × Option Err :=
  let sec := "Desktop Action QuickPreview"
  match f.NewSection sec with
  | (f, some err) => (f, some err)
  | (f, none) =>
  match f.NewKey sec "Name" opts.Name with
  | (f, some err) => (f, some err)
  | (f, none) =>
  match f.NewKey sec "Exec" opts.Exec with
  | (f, some err) => (f, some err)
  | (f, none) =>
  match f.NewKey sec "TryExec" opts.TryExec with
  | (f, some err) => (f, some err)
  | (f, none) =>
  match f.NewKey sec "NoDisplay" (sprintBool opts.NoDisplay) with
  | (f, some err) => (f, some err)
  | (f, none) => (f, none)

/-- Go `LinuxOpenWithTerminal.WriteTo`. -/
def LinuxOpenWithTerminal.WriteTo (opts : LinuxOpenWithTerminal) (f : IniFile) :
    IniFile × Option Err :=
  let sec := "Desktop Action OpenWithTerminal"
  match f.NewSection sec with
  | (f, some err) => (f, some err)
  | (f, none) =>
  match f.NewKey sec "Name" opts.Name with
  | (f, some err) => (f, some err)
  | (f, none) =>
  match f.NewKey sec "Exec" opts.Exec with
  | (f, some err) => (f, some err)
  | (f, none) => (f, none)

/-- Go slice assignment `a[i] = v`: out of range it panics (`none`). -/
def setIndex (a : List String) (i : Nat) (v : String) : Option (List String) :=
  if i < a.length then some (a.set i v) else none

/-- Go `LinuxOptions.AllMimetypes`: a slice of `len(Protocols)+len(Mimetypes)` empty
strings, filled by the two loops of the source; `none` when an assignment panics.  The
second loop writes at index `i+len(opts.Mimetypes)`, as the source does. -/
def LinuxOptions.AllMimetypes (opts : LinuxOptions) : Option (List String) :=
  let mimetypes := List.replicate (opts.Protocols.length + opts.Mimetypes.length) ""
  let mimetypes := opts.Protocols.enum.foldl
    (fun acc ip => acc.bind (fun a => setIndex a ip.1 ("x-scheme-handler/" ++ ip.2)))
    (some mimetypes)
  opts.Mimetypes.enum.foldl
    (fun acc im => acc.bind (fun a => setIndex a (im.1 + opts.Mimetypes.length) im.2))
    mimetypes

/-- Go `LinuxOptions.WriteTo`.  The errors of the two action writers are discarded, as
in the source. -/
def LinuxOptions.WriteTo (opts : LinuxOptions) (f : IniFile) : IniFile × Ret :=
  let sec := "Desktop Entry"
  match f.NewSection sec with
  | (f, some err) => (f, .err err)
  | (f, none) =>
  match f.NewKey sec "Type" "Application" with
  | (f, some err) => (f, .err err)
  | (f, none) =>
  match f.NewKey sec "StartupNotify" "false" with
  | (f, some err) => (f, .err err)
  | (f, none) =>
  match f.NewKey sec "Name" opts.Metadata.Name with
  | (f, some err) => (f, .err err)
  | (f, none) =>
  match f.NewKey sec "Comment" opts.Metadata.Comment with
  | (f, some err) => (f, .err err)
  | (f, none) =>
  match f.NewKey sec "Icon" opts.Metadata.Icon with
  | (f, some err) => (f, .err err)
  | (f, none) =>
  match f.NewKey sec "Exec" opts.Exec with
  | (f, some err) => (f, .err err)
  | (f, none) =>
  match f.NewKey sec "Categories" (strJoin opts.Metadata.Categories ";") with
  | (f, some err) => (f, .err err)
  | (f, none) =>
  match opts.AllMimetypes with
  | none => (f, .panic .indexOutOfRange)
  | some all =>
  match f.NewKey sec "MimeType" (strJoin all ";") with
  | (f, some err) => (f, .err err)
  | (f, none) =>
  let f := (opts.OpenQuickPreview.WriteTo f).1
  let f := (opts.OpenWithTerminal.WriteTo f).1
  (f, .nil)

/-- Go `linuxIdToDesktopFilename`. -/
def linuxIdToDesktopFilename (id : String) : String :=
  id ++ "-opener.desktop"

/-! ## The host: environment, file system, external commands -/

/-- Content of a regular file.  `ini lines`: the key lines of the file under their
section headers (those before any header under `DEFAULT`), each key with the name ini.v1
reads from the line and, as its value, the text to the right of the delimiter; for a
file written by `(*File).WriteTo` these are the keys and values of the document written
(the quotes `WriteTo` puts around a value with special characters aside).  `other`:
content `ini.Load` rejects. -/
inductive FileData where
  | ini (doc : IniFile)
  | other
  deriving DecidableEq, Repr

/-- An external command as `exec.Command(name, arg...)` builds it. -/
structure Command where
  name : String
  args : List String
  deriving DecidableEq, Repr

/-- State the program acts on: the `HOME` variable, the directories with the mode they
were created with, the regular files with their content, and the external commands run
so far, oldest first. -/
structure World where
  home : Option String
  dirs : String → Option Nat
  files : String → Option FileData
  cmds : List Command

/-- The file-system calls the program makes. -/
inductive FsOp where
  | mkdirAll (path : String)
  | create (path : String)
  | write (path : String)
  | remove (path : String)
  | load (path : String)
  deriving DecidableEq, Repr

/-- What the modelled state does not determine: `fault op` is the error a file-system
call meets for a reason outside the model (permissions, among them the missing search
bit of a directory for a caller that is not root, a missing parent, a full disk),
`run name args` the error `(*Cmd).Run` returns for an external command (`none`: exit
status zero).  External commands do not act on the modelled files. -/
structure Host where
  fault : FsOp → Option Err
  run : String → List String → Option Err

/-- Go `os.MkdirAll(path, perm)`: nothing to do when the directory exists; otherwise
the directory is created with mode `perm` (the mode passed, before the umask).  Only
the named directory is recorded, not the parents created on the way. -/
def mkdirAll (h : Host) (w : World) (path : String) (perm : Nat) : Except Err World :=
  match w.dirs path with
  | some _ => .ok w
  | none =>
    match h.fault (.mkdirAll path) with
    | some err => .error err
    | none => .ok { w with dirs := fun p => if p = path then some perm else w.dirs p }

/-- Go `os.Create(path)`: the file exists afterwards and is empty, which is the content
`ini.Load` reads as the empty document. -/
def create (h : Host) (w : World) (path : String) : Except Err World :=
  match h.fault (.create path) with
  | some err => .error err
  | none =>
    .ok { w with files := fun p => if p = path then some (.ini IniFile.Empty) else w.files p }

/-- Go `(*ini.File).WriteTo(file)` on the file opened at `path`. -/
def writeFile (h : Host) (w : World) (path : String) (doc : IniFile) : Except Err World :=
  match h.fault (.write path) with
  | some err => .error err
  | none => .ok { w with files := fun p => if p = path then some (.ini doc) else w.files p }

/-- Go `os.Remove(path)`: the host may fail the call (a directory that cannot be
searched fails it whether the file is there or not); otherwise a path that names no
file is the not-exist error. -/
def remove (h : Host) (w : World) (path : String) : Except Err World :=
  match h.fault (.remove path) with
  | some err => .error err
  | none =>
    match w.files path with
    | none => .error (.notExist path)
    | some _ => .ok { w with files := fun p => if p = path then none else w.files p }

/-- Go `ini.Load(path)`, with default options: the `*File` result, `nil` (`none`)
whenever opening, reading or parsing fails.  The caller discards the error. -/
def iniLoad (h : Host) (w : World) (path : String) : Option IniFile :=
  match w.files path with
  | none => none
  | some .other => none
  | some (.ini lines) =>
    match h.fault (.load path) with
    | some _ => none
    | none => loadDocument lines

/-- Go `exec.Command(name, args...).Run()`: the command is recorded and its outcome is
the host's. -/
def runCommand (h : Host) (w : World) (name : String) (args : List String) :
    World × Option Err :=
  ({ w with cmds := w.cmds ++ [⟨name, args⟩] }, h.run name args)

/-! ## Registration and unregistration (`linux.go`) -/

/-- Go `RegisterLinux`: the four validation checks, the `HOME` lookup, `os.MkdirAll`
with mode 0666, `os.Create` of the entry file, the document built by `opts.WriteTo` and
written to the file, then `xdg-mime` and `update-desktop-database`.  Each `match` is an
`if err != nil` of the source; the deferred `file.Close()` does not act on the modelled
state. -/
def RegisterLinux (h : Host) (id : String) (opts : LinuxOptions) (w : World) : World × Ret :=
  if id = "" then
    (w, .err (.msg "you must specify a non-empty id that is a unique identifier for this registration"))
  else if opts.Protocols.length = 0 then
    (w, .err (.msg "you must specify at least one protocol"))
  else if opts.Exec = "" then
    (w, .err (.msg "you must specify a command for Exec, it will be executed when your application is called via custom url"))
  else if !opts.NoUrlArgNecessary && !strContains opts.Exec "%u" && !strContains opts.Exec "%U" then
    (w, .err (.msg "you have not specified %u or %U in your Exec command, %u/U is the placeholder for the specific url your application is called with. if you meant to omit this set the NoUrlArgNecessary option to true"))
  else
  match w.home with
  | none => (w, .err (.msg "environment variable not set: $HOME"))
  | some homedir =>
  let appsdir := pathJoin [homedir, ".local", "share", "applications"]
  match mkdirAll h w appsdir 0o666 with
  | .error err => (w, .err err)
  | .ok w =>
  let filename := linuxIdToDesktopFilename id
  match create h w (pathJoin [appsdir, filename]) with
  | .error err => (w, .err err)
  | .ok w =>
  let desktopFile := IniFile.Empty
  match opts.WriteTo desktopFile with
  | (_, .err err) => (w, .err err)
  | (_, .panic p) => (w, .panic p)
  | (desktopFile, .nil) =>
  match writeFile h w (pathJoin [appsdir, filename]) desktopFile with
  | .error err => (w, .err err)
  | .ok w =>
  match opts.AllMimetypes with
  | none => (w, .panic .indexOutOfRange)
  | some all =>
  match runCommand h w "xdg-mime" (["default", filename] ++ all) with
  | (w, some err) => (w, .err err)
  | (w, none) =>
  match runCommand h w "update-desktop-database"
      [pathJoin [homedir, ".local", "share", "applications"]] with
  | (w, some err) => (w, .err err)
  | (w, none) => (w, .nil)

/-- The keys `UnregisterLinux` collects in `toBeDeleted`: the names of the keys of
`section` for which `kv.String()` is `filename`, in section order. -/
def collectToBeDeleted (defaultAppsList : IniFile) (sec : Section) (filename : String) :
    List String :=
  sec.Keys.foldl (fun toBeDeleted kv =>
    if kv.StringOf defaultAppsList sec = filename then toBeDeleted ++ [kv.Name]
    else toBeDeleted) []

/-- Go `UnregisterLinux`.  The error of `ini.Load` is overwritten by that of
`GetSection`, which dereferences the `*File`; `section.Keys()` dereferences the
section. -/
def UnregisterLinux (h : Host) (id : String) (w : World) : World × Ret :=
  match w.home with
  | none => (w, .err (.msg "environment variable not set: $HOME"))
  | some homedir =>
  let appsdir := pathJoin [homedir, ".local", "share", "applications"]
  match mkdirAll h w appsdir 0o666 with
  | .error err => (w, .err err)
  | .ok w =>
  let filename := linuxIdToDesktopFilename id
  match remove h w (pathJoin [appsdir, filename]) with
  | .error err => (w, .err err)
  | .ok w =>
  let defaultAppsFilepath := pathJoin [homedir, ".config", "mimeapps.list"]
  match iniLoad h w defaultAppsFilepath with
  | none => (w, .panic .nilDereference)
  | some defaultAppsList =>
  match defaultAppsList.GetSection "Default Applications" with
  | (sec, err) =>
  if IsErrDelimiterNotFound err then (w, .nil)
  else
  match sec with
  | none => (w, .panic .nilDereference)
  | some sec =>
  let toBeDeleted := collectToBeDeleted defaultAppsList sec filename
  let defaultAppsList := toBeDeleted.foldl
    (fun f key => f.DeleteKey "Default Applications" key) defaultAppsList
  match create h w defaultAppsFilepath with
  | .error err => (w, .err err)
  | .ok w =>
  match writeFile h w defaultAppsFilepath defaultAppsList with
  | .error err => (w, .err err)
  | .ok w => (w, .nil)

/-! ## Specification vocabulary -/

/-- The applications directory of a home directory, as both operations compute it. -/
def appsDir (home : String) : String :=
  pathJoin [home, ".local", "share", "applications"]

/-- The entry file of `id`, as both operations compute it. -/
def entryPath (home id : String) : String :=
  pathJoin [appsDir home, linuxIdToDesktopFilename id]

/-- The default-associations list file, as `UnregisterLinux` computes it. -/
def mimeappsPath (home : String) : String :=
  pathJoin [home, ".config", "mimeapps.list"]

/-- Inputs that pass the four validation checks of `RegisterLinux`. -/
def Valid (id : String) (opts : LinuxOptions) : Prop :=
  id ≠ "" ∧ opts.Protocols ≠ [] ∧ opts.Exec ≠ "" ∧
    (opts.NoUrlArgNecessary = true ∨ strContains opts.Exec "%u" = true ∨
      strContains opts.Exec "%U" = true)

/-- A permission mode grants the owning user full access: the owner read, write and
search/execute bits (octal 0700) are all set. -/
def ownerFullAccess (mode : Nat) : Bool :=
  mode &&& 0o700 == 0o700

/-- The sections of a document that are desktop actions: `[Desktop Action <ActionName>]`. -/
def actionSections (f : IniFile) : List Section :=
  f.Sections.filter (fun s => hasPrefixChars s.Name.data "Desktop Action ".data)

/-- The document a regular file holds, if it holds one. -/
def World.document (w : World) (path : String) : Option IniFile :=
  match w.files path with
  | some (.ini doc) => some doc
  | _ => none

/-- The document `LinuxOptions.WriteTo` makes of the empty document when `AllMimetypes`
returns `all`. -/
def entryDocument (opts : LinuxOptions) (all : List String) : IniFile :=
  ⟨[⟨"DEFAULT", []⟩,
    ⟨"Desktop Entry",
      [⟨"Type", "Application"⟩, ⟨"StartupNotify", "false"⟩, ⟨"Name", opts.Metadata.Name⟩,
       ⟨"Comment", opts.Metadata.Comment⟩, ⟨"Icon", opts.Metadata.Icon⟩,
       ⟨"Exec", opts.Exec⟩, ⟨"Categories", strJoin opts.Metadata.Categories ";"⟩,
       ⟨"MimeType", strJoin all ";"⟩]⟩,
    ⟨"Desktop Action QuickPreview",
      [⟨"Name", opts.OpenQuickPreview.Name⟩, ⟨"Exec", opts.OpenQuickPreview.Exec⟩,
       ⟨"TryExec", opts.OpenQuickPreview.TryExec⟩,
       ⟨"NoDisplay", sprintBool opts.OpenQuickPreview.NoDisplay⟩]⟩,
    ⟨"Desktop Action OpenWithTerminal",
      [⟨"Name", opts.OpenWithTerminal.Name⟩, ⟨"Exec", opts.OpenWithTerminal.Exec⟩]⟩]⟩

/-! ## Sample inputs -/

/-- Options of an application `App` run as `run %u`, with the given protocols and
literal MIME types. -/
def sampleOptions (protocols mimetypes : List String) : LinuxOptions :=
  { Metadata := ⟨"App", "An application", "app-icon", ["Network", "Utility"]⟩
    Exec := "run %u"
    Protocols := protocols
    Mimetypes := mimetypes
    OpenWithTerminal := ⟨"Open in terminal", "run --terminal %u"⟩
    OpenQuickPreview := ⟨"Preview", "run --preview %u", "run", true⟩
    NoUrlArgNecessary := false }

/-- A host on which no file-system call and no external command fails. -/
def quietHost : Host := ⟨fun _ => none, fun _ _ => none⟩

/-- A host on which only the `xdg-mime` invocation fails. -/
def brokenBinderHost : Host :=
  ⟨fun _ => none, fun name _ => if name = "xdg-mime" then some (.host 1) else none⟩

/-- A world with `HOME=/home/u` and nothing else. -/
def freshWorld : World := ⟨some "/home/u", fun _ => none, fun _ => none, []⟩

/-- A world with `HOME=/home/u`, the applications directory, the entry file of `app`
and, when `list` is given, the default-associations list file holding it. -/
def registeredWorld (list : Option FileData) : World :=
  { home := some "/home/u"
    dirs := fun p => if p = "/home/u/.local/share/applications" then some 0o755 else none
    files := fun p =>
      if p = "/home/u/.local/share/applications/app-opener.desktop" then some .other
      else if p = "/home/u/.config/mimeapps.list" then list
      else none
    cmds := [] }

/-- Key lines of a default-associations list with `;`-separated values, as the
desktop-entry format writes lists: `text/html=firefox.desktop;chromium.desktop`,
`x-scheme-handler/a=app-opener.desktop` and
`x-scheme-handler/b=app-opener.desktop;other.desktop`. -/
def separatedMimeapps : IniFile :=
  ⟨[⟨"DEFAULT", []⟩,
    ⟨"Default Applications",
      [⟨"text/html", "firefox.desktop;chromium.desktop"⟩,
       ⟨"x-scheme-handler/a", "app-opener.desktop"⟩,
       ⟨"x-scheme-handler/b", "app-opener.desktop;other.desktop"⟩]⟩]⟩

/-- Key lines of a default-associations list with a value that is a variable:
`x-scheme-handler/a=app-opener.desktop` and `text/plain=%(x-scheme-handler/a)s`. -/
def variableMimeapps : IniFile :=
  ⟨[⟨"DEFAULT", []⟩,
    ⟨"Default Applications",
      [⟨"x-scheme-handler/a", "app-opener.desktop"⟩,
       ⟨"text/plain", "%(x-scheme-handler/a)s"⟩]⟩]⟩

/-! ## Lemmas on the options -/

/-- The first loop of `AllMimetypes`, started at index `pre.length` of a slice whose
next `ps.length` entries are still empty, fills them with the synthesized types. -/
theorem fill_protocols (ps : List String) :
    ∀ (pre post : List String),
      (ps.enumFrom pre.length).foldl
        (fun acc ip => acc.bind (fun a => setIndex a ip.1 ("x-scheme-handler/" ++ ip.2)))
        (some (pre ++ (List.replicate ps.length "" ++ post)))
      = some (pre ++ (ps.map (fun p => "x-scheme-handler/" ++ p) ++ post)) := by
  induction ps with
  | nil => intro pre post; rfl
  | cons p ps ih =>
    intro pre post
    have hstep : setIndex (pre ++ (List.replicate (p :: ps).length "" ++ post)) pre.length
        ("x-scheme-handler/" ++ p)
        = some ((pre ++ ["x-scheme-handler/" ++ p]) ++ (List.replicate ps.length "" ++ post)) := by
      simp [setIndex, List.replicate_succ]
    have hlen : pre.length + 1 = (pre ++ ["x-scheme-handler/" ++ p]).length := by simp
    rw [List.enumFrom_cons, List.foldl_cons]
    show List.foldl _ (setIndex _ pre.length ("x-scheme-handler/" ++ p)) _ = _
    rw [hstep, hlen, ih]
    simp

/-- Without literal MIME types `AllMimetypes` returns the synthesized scheme types in
protocol order. -/
theorem AllMimetypes_of_no_mimetypes (opts : LinuxOptions) (hM : opts.Mimetypes = []) :
    opts.AllMimetypes = some (opts.Protocols.map (fun p => "x-scheme-handler/" ++ p)) := by
  have h := fill_protocols opts.Protocols [] []
  simp only [List.length_nil, List.append_nil, List.nil_append] at h
  simp only [LinuxOptions.AllMimetypes, hM, List.length_nil, Nat.add_zero, List.enum,
    List.enumFrom_nil, List.foldl_nil]
  exact h

/-- Whenever `AllMimetypes` returns, `LinuxOptions.WriteTo` turns the empty document
into `entryDocument` and returns no error. -/
theorem WriteTo_Empty_of_AllMimetypes (opts : LinuxOptions) (all : List String)
    (hall : opts.AllMimetypes = some all) :
    opts.WriteTo IniFile.Empty = (entryDocument opts all, .nil) := by
  unfold LinuxOptions.WriteTo
  rw [hall]
  rfl

/-- Whenever `AllMimetypes` panics, `LinuxOptions.WriteTo` panics on the empty document
before it adds an action section. -/
theorem WriteTo_Empty_of_panic (opts : LinuxOptions) (hall : opts.AllMimetypes = none) :
    (opts.WriteTo IniFile.Empty).2 = .panic .indexOutOfRange ∧
    actionSections (opts.WriteTo IniFile.Empty).1 = [] := by
  unfold LinuxOptions.WriteTo
  rw [hall]
  exact ⟨rfl, rfl⟩

/-! ## Lemmas on the ini document -/

/-- In a section whose key names are distinct, `DeleteKey` removes exactly the keys of
that name. -/
theorem deleteKey_eq_filter (keys : List Key) (name : String)
    (hnd : (keys.map Key.Name).Nodup) :
    deleteKey keys name = keys.filter (fun k => decide (k.Name ≠ name)) := by
  induction keys with
  | nil => rfl
  | cons k ks ih =>
    rw [List.map_cons, List.nodup_cons] at hnd
    by_cases hk : k.Name = name
    · have hrest : ∀ a ∈ ks, a.Name ≠ name :=
        fun a ha h => hnd.1 (hk ▸ h ▸ List.mem_map_of_mem Key.Name ha)
      have hself : ks.filter (fun k => decide (k.Name ≠ name)) = ks :=
        List.filter_eq_self.mpr (by intro a ha; simpa using hrest a ha)
      rw [List.filter_cons, if_neg (by simp [hk]), hself]
      simp [deleteKey, hk]
    · simp [deleteKey, hk, ih hnd.2]

/-- Deleting a list of names one after the other removes the keys with one of these
names. -/
theorem foldl_deleteKey_eq_filter (del : List String) :
    ∀ keys : List Key, (keys.map Key.Name).Nodup →
      del.foldl deleteKey keys = keys.filter (fun k => decide (k.Name ∉ del)) := by
  induction del with
  | nil => intro keys _; simp
  | cons d del ih =>
    intro keys hnd
    have hnd' : ((keys.filter (fun k => decide (k.Name ≠ d))).map Key.Name).Nodup :=
      hnd.sublist ((List.filter_sublist keys).map Key.Name)
    rw [List.foldl_cons, deleteKey_eq_filter keys d hnd, ih _ hnd', List.filter_filter]
    apply List.filter_congr
    intro k _
    by_cases h1 : k.Name = d <;> by_cases h2 : k.Name ∈ del <;> simp [h1, h2]

/-- The loop that collects `toBeDeleted` yields the names of the keys for which
`kv.String()` is `filename`. -/
theorem collectToBeDeleted_eq (f : IniFile) (sec : Section) (filename : String) :
    collectToBeDeleted f sec filename
      = (sec.Keys.filter (fun k => decide (k.StringOf f sec = filename))).map Key.Name := by
  have hgen : ∀ (ks : List Key) (acc : List String),
      ks.foldl (fun toBeDeleted kv =>
        if kv.StringOf f sec = filename then toBeDeleted ++ [kv.Name] else toBeDeleted) acc
      = acc ++ (ks.filter (fun k => decide (k.StringOf f sec = filename))).map Key.Name := by
    intro ks
    induction ks with
    | nil => intro acc; simp
    | cons k ks ih =>
      intro acc
      by_cases hk : k.StringOf f sec = filename <;> simp [hk, ih]
  simpa [collectToBeDeleted] using hgen sec.Keys []

/-- Collecting the keys for which `kv.String()` is `filename` and deleting them leaves
the other keys, in their order. -/
theorem delete_collected (f : IniFile) (sec : Section) (filename : String)
    (hnd : (sec.Keys.map Key.Name).Nodup) :
    (collectToBeDeleted f sec filename).foldl deleteKey sec.Keys
      = sec.Keys.filter (fun k => decide (k.StringOf f sec ≠ filename)) := by
  rw [foldl_deleteKey_eq_filter _ sec.Keys hnd, collectToBeDeleted_eq]
  apply List.filter_congr
  intro k hk
  have hiff : k.Name ∈ (sec.Keys.filter
        (fun k => decide (k.StringOf f sec = filename))).map Key.Name
      ↔ k.StringOf f sec = filename := by
    constructor
    · intro hmem
      obtain ⟨k', hk', hname⟩ := List.mem_map.mp hmem
      have hk'' := List.mem_filter.mp hk'
      have : k' = k := List.inj_on_of_nodup_map hnd hk''.1 hk hname
      subst this
      simpa using hk''.2
    · intro hv
      exact List.mem_map_of_mem Key.Name (List.mem_filter.mpr ⟨hk, by simpa using hv⟩)
  by_cases hv : k.StringOf f sec = filename <;> simp [hiff, hv]

/-- Two modifications of the section called `name` that keep its name compose. -/
theorem modifySection_modifySection (g g' : Section → Section) (name : String)
    (hname : ∀ s, (g' s).Name = s.Name) (l : List Section) :
    modifySection g name (modifySection g' name l) = modifySection (g ∘ g') name l := by
  induction l with
  | nil => rfl
  | cons s ss ih =>
    by_cases hs : s.Name = name
    · simp [modifySection, hs, hname]
    · simp [modifySection, hs, ih]

/-- Deleting keys of the section called `sec` one after the other modifies that section
once. -/
theorem foldl_DeleteKey (sec : String) (del : List String) :
    ∀ f : IniFile, del.foldl (fun f key => f.DeleteKey sec key) f
      = ⟨modifySection (fun s => ⟨s.Name, del.foldl deleteKey s.Keys⟩) sec f.Sections⟩ := by
  induction del with
  | nil =>
    intro f
    have hid : ∀ l : List Section,
        modifySection (fun s => ⟨s.Name, s.Keys⟩) sec l = l := by
      intro l
      induction l with
      | nil => rfl
      | cons s ss ih =>
        unfold modifySection
        split
        · rfl
        · rw [ih]
    simp [hid]
  | cons d del ih =>
    intro f
    rw [List.foldl_cons, ih]
    show IniFile.mk (modifySection _ sec (modifySection _ sec f.Sections)) = _
    rw [modifySection_modifySection (fun s => ⟨s.Name, del.foldl deleteKey s.Keys⟩)
      (fun s => ⟨s.Name, deleteKey s.Keys d⟩) sec (fun _ => rfl)]
    rfl

/-- Looking up the section called `name` after modifying it, by a function that keeps
its name, finds the modified section. -/
theorem find_modifySection (g : Section → Section) (name : String)
    (hname : ∀ s, (g s).Name = s.Name) (l : List Section) :
    (modifySection g name l).find? (fun s => s.Name == name)
      = (l.find? (fun s => s.Name == name)).map g := by
  induction l with
  | nil => rfl
  | cons s ss ih =>
    by_cases hs : s.Name = name
    · simp [modifySection, hs, hname]
    · simp [modifySection, hs, ih]

/-- The section `GetSection` returns for a non-empty name, in terms of `find?`. -/
theorem GetSection_fst (f : IniFile) (name : String) (hne : name.length ≠ 0) :
    (f.GetSection name).1 = f.Sections.find? (fun s => s.Name == name) := by
  unfold IniFile.GetSection
  simp only [if_neg hne]
  cases f.Sections.find? (fun s => s.Name == name) <;> rfl

/-- The error `GetSection` returns is never `ErrDelimiterNotFound`. -/
theorem GetSection_not_delimiter (f : IniFile) (name : String) :
    IsErrDelimiterNotFound (f.GetSection name).2 = false := by
  unfold IniFile.GetSection
  simp only
  split <;> rfl

/-! ## Lemmas on the file-system calls -/

theorem mkdirAll_ok (h : Host) (w w1 : World) (path : String) (perm : Nat)
    (hok : mkdirAll h w path perm = .ok w1) :
    w1.home = w.home ∧ w1.files = w.files ∧ w1.cmds = w.cmds := by
  unfold mkdirAll at hok
  split at hok
  · cases hok; exact ⟨rfl, rfl, rfl⟩
  · split at hok
    · cases hok
    · cases hok; exact ⟨rfl, rfl, rfl⟩

theorem remove_ok (h : Host) (w w1 : World) (path : String)
    (hok : remove h w path = .ok w1) :
    w1.files = (fun p => if p = path then none else w.files p) ∧ w1.cmds = w.cmds := by
  unfold remove at hok
  split at hok
  · cases hok
  · split at hok
    · cases hok
    · cases hok; exact ⟨rfl, rfl⟩

theorem create_ok (h : Host) (w w1 : World) (path : String)
    (hok : create h w path = .ok w1) :
    w1.files = (fun p => if p = path then some (.ini IniFile.Empty) else w.files p) ∧
      w1.cmds = w.cmds := by
  unfold create at hok
  split at hok
  · cases hok
  · cases hok; exact ⟨rfl, rfl⟩

theorem writeFile_ok (h : Host) (w w1 : World) (path : String) (doc : IniFile)
    (hok : writeFile h w path doc = .ok w1) :
    w1.files = (fun p => if p = path then some (.ini doc) else w.files p) ∧
      w1.cmds = w.cmds := by
  unfold writeFile at hok
  split at hok
  · cases hok
  · cases hok; exact ⟨rfl, rfl⟩

theorem iniLoad_some (h : Host) (w : World) (path : String) (doc : IniFile)
    (hload : iniLoad h w path = some doc) :
    ∃ lines, w.files path = some (.ini lines) ∧ loadDocument lines = some doc := by
  unfold iniLoad at hload
  split at hload
  · cases hload
  · cases hload
  · rename_i lines hfile
    split at hload
    · cases hload
    · exact ⟨lines, hfile, hload⟩

/-! ## Theorems -/

/-- C1 (code defect): `AllMimetypes` does not return the synthesized scheme types
followed by the literal types.  With protocols `a`, `b` and the literal type `m` it
returns `x-scheme-handler/a`, `m` and an empty string, not `x-scheme-handler/a`,
`x-scheme-handler/b`, `m`; with one protocol and two literal types it panics. -/
theorem AllMimetypes_misplaces_literal_types :
    (sampleOptions ["a", "b"] ["m"]).AllMimetypes = some ["x-scheme-handler/a", "m", ""] ∧
    (sampleOptions ["a", "b"] ["m"]).AllMimetypes
      ≠ some ["x-scheme-handler/a", "x-scheme-handler/b", "m"] ∧
    (sampleOptions ["a"] ["m", "n"]).AllMimetypes = none := by
  decide

/-- C4 (code defect): with the entry file of `app` present, `UnregisterLinux` removes
the entry file and then panics, both when the default-associations list file is absent
and when it holds a document without a `[Default Applications]` section. -/
theorem UnregisterLinux_panics_without_list :
    (UnregisterLinux quietHost "app" (registeredWorld none)).2 = .panic .nilDereference ∧
    (UnregisterLinux quietHost "app" (registeredWorld none)).1.files
      (entryPath "/home/u" "app") = none ∧
    (UnregisterLinux quietHost "app" (registeredWorld (some (.ini IniFile.Empty)))).2
      = .panic .nilDereference ∧
    (UnregisterLinux quietHost "app" (registeredWorld (some (.ini IniFile.Empty)))).1.files
      (entryPath "/home/u" "app") = none := by
  decide

/-- C7 (code defect): on options with one protocol and two literal MIME types
`LinuxOptions.WriteTo` panics on the empty document, and the `[Desktop Entry]` section
it leaves has no `MimeType` key. -/
theorem WriteTo_panics_on_longer_mimetypes :
    ((sampleOptions ["a"] ["m", "n"]).WriteTo IniFile.Empty).2 = .panic .indexOutOfRange ∧
    ((((sampleOptions ["a"] ["m", "n"]).WriteTo IniFile.Empty).1.GetSection
      "Desktop Entry").1.map (fun s => s.Keys.map Key.Name))
      = some ["Type", "StartupNotify", "Name", "Comment", "Icon", "Exec", "Categories"] := by
  decide

/-- C10 (code defect): `RegisterLinux` creates the missing applications directory with
mode 0666, which does not grant the owner the search/execute bit. -/
theorem RegisterLinux_directory_mode :
    freshWorld.dirs (appsDir "/home/u") = none ∧
    (RegisterLinux quietHost "app" (sampleOptions ["a"] []) freshWorld).1.dirs
      (appsDir "/home/u") = some 0o666 ∧
    ownerFullAccess 0o666 = false := by
  decide

/-- C9 (counterexample): the `[Desktop Action QuickPreview]` section that
`LinuxOptions.WriteTo` adds has a `TryExec` key, so not every key of an action section
is one of `Name`, `Exec` and `NoDisplay`. -/
theorem WriteTo_action_section_has_TryExec :
    ¬ (∀ s ∈ actionSections ((sampleOptions ["a"] []).WriteTo IniFile.Empty).1,
        ∀ k ∈ s.Keys, k.Name ∈ ["Name", "Exec", "NoDisplay"]) := by
  decide

/-- C2: when `id` is empty, or there is no protocol, or `Exec` is empty, or `Exec` has
neither `%u` nor `%U` while `NoUrlArgNecessary` is false, `RegisterLinux` returns an
error and the world it leaves is the world it was given: no directory or file is
created and no external command is run. -/
theorem RegisterLinux_rejects_invalid (h : Host) (id : String) (opts : LinuxOptions)
    (w : World)
    (hbad : id = "" ∨ opts.Protocols = [] ∨ opts.Exec = "" ∨
      (strContains opts.Exec "%u" = false ∧ strContains opts.Exec "%U" = false ∧
        opts.NoUrlArgNecessary = false)) :
    ∃ e, RegisterLinux h id opts w = (w, .err e) := by
  unfold RegisterLinux
  by_cases h1 : id = ""
  · exact ⟨_, if_pos h1⟩
  · rw [if_neg h1]
    by_cases h2 : opts.Protocols.length = 0
    · exact ⟨_, if_pos h2⟩
    · rw [if_neg h2]
      by_cases h3 : opts.Exec = ""
      · exact ⟨_, if_pos h3⟩
      · rw [if_neg h3]
        have h4 : (!opts.NoUrlArgNecessary && !strContains opts.Exec "%u"
            && !strContains opts.Exec "%U") = true := by
          rcases hbad with hb | hb | hb | ⟨hu, hU, hn⟩
          · exact absurd hb h1
          · exact absurd (by simp [hb]) h2
          · exact absurd hb h3
          · simp [hu, hU, hn]
        exact ⟨_, if_pos h4⟩

/-- Witness of C2: an empty `id` on a world with a home directory. -/
theorem RegisterLinux_rejects_invalid_witness :
    ∃ e, RegisterLinux quietHost "" (sampleOptions ["a"] []) freshWorld
      = (freshWorld, .err e) :=
  RegisterLinux_rejects_invalid quietHost "" (sampleOptions ["a"] []) freshWorld
    (Or.inl rfl)

/-- C6: for a non-empty `id` and options that pass validation and have no literal MIME
types, when `HOME` is set and the directory, create, write and both external steps
succeed, `RegisterLinux` returns no error and the commands it runs are exactly
`xdg-mime default <id>-opener.desktop x-scheme-handler/<p>...` in protocol order, then
`update-desktop-database` on the applications directory. -/
theorem RegisterLinux_runs_binder_then_refresh (h : Host) (id : String)
    (opts : LinuxOptions) (w : World) (home : String)
    (hvalid : Valid id opts) (hM : opts.Mimetypes = []) (hhome : w.home = some home)
    (hmk : h.fault (.mkdirAll (appsDir home)) = none)
    (hcr : h.fault (.create (entryPath home id)) = none)
    (hwr : h.fault (.write (entryPath home id)) = none)
    (hbind : h.run "xdg-mime" (["default", id ++ "-opener.desktop"] ++
      opts.Protocols.map (fun p => "x-scheme-handler/" ++ p)) = none)
    (hrefresh : h.run "update-desktop-database" [appsDir home] = none) :
    (RegisterLinux h id opts w).2 = .nil ∧
    (RegisterLinux h id opts w).1.cmds = w.cmds ++
      [⟨"xdg-mime", ["default", id ++ "-opener.desktop"] ++
          opts.Protocols.map (fun p => "x-scheme-handler/" ++ p)⟩,
       ⟨"update-desktop-database", [appsDir home]⟩] := by
  obtain ⟨h1, h2, h3, h4⟩ := hvalid
  have h2' : ¬ opts.Protocols.length = 0 := by simpa using h2
  have h4' : ¬ (!opts.NoUrlArgNecessary && !strContains opts.Exec "%u"
      && !strContains opts.Exec "%U") = true := by
    rcases h4 with h4 | h4 | h4 <;> simp [h4]
  have hall := AllMimetypes_of_no_mimetypes opts hM
  have hdoc := WriteTo_Empty_of_AllMimetypes opts _ hall
  simp only [appsDir, entryPath, linuxIdToDesktopFilename] at hmk hcr hwr hrefresh ⊢
  simp only [List.cons_append, List.nil_append] at hbind ⊢
  unfold RegisterLinux
  rw [if_neg h1, if_neg h2', if_neg h3, if_neg h4']
  cases hd : w.dirs (pathJoin [home, ".local", "share", "applications"]) <;>
    simp [hhome, mkdirAll, create, writeFile, runCommand, hd, hmk, hcr, hwr, hall, hdoc,
      hbind, hrefresh, linuxIdToDesktopFilename]

/-- Witness of C6: `app` with the protocols `a` and `b` under `HOME=/home/u`. -/
theorem RegisterLinux_runs_binder_then_refresh_witness :
    (RegisterLinux quietHost "app" (sampleOptions ["a", "b"] []) freshWorld).2 = .nil ∧
    (RegisterLinux quietHost "app" (sampleOptions ["a", "b"] []) freshWorld).1.cmds =
      [⟨"xdg-mime", ["default", "app-opener.desktop", "x-scheme-handler/a",
          "x-scheme-handler/b"]⟩,
       ⟨"update-desktop-database", ["/home/u/.local/share/applications"]⟩] :=
  RegisterLinux_runs_binder_then_refresh quietHost "app" (sampleOptions ["a", "b"] [])
    freshWorld "/home/u" (by unfold Valid; decide) rfl rfl rfl rfl rfl rfl rfl

/-- C8: for inputs that pass validation, when the entry file is written (`HOME` is set,
the directory, create and write steps succeed and `AllMimetypes` returns) and the
`xdg-mime` invocation fails with `e`, `RegisterLinux` returns `e`, the only command it
has run is `xdg-mime`, and the entry file still holds the document that was written. -/
theorem RegisterLinux_binder_failure_keeps_entry (h : Host) (id : String)
    (opts : LinuxOptions) (w : World) (home : String) (all : List String) (e : Err)
    (hvalid : Valid id opts) (hhome : w.home = some home)
    (hmk : h.fault (.mkdirAll (appsDir home)) = none)
    (hcr : h.fault (.create (entryPath home id)) = none)
    (hall : opts.AllMimetypes = some all)
    (hwr : h.fault (.write (entryPath home id)) = none)
    (hbind : h.run "xdg-mime" (["default", id ++ "-opener.desktop"] ++ all) = some e) :
    (RegisterLinux h id opts w).2 = .err e ∧
    (RegisterLinux h id opts w).1.cmds = w.cmds ++
      [⟨"xdg-mime", ["default", id ++ "-opener.desktop"] ++ all⟩] ∧
    (RegisterLinux h id opts w).1.files (entryPath home id)
      = some (.ini (opts.WriteTo IniFile.Empty).1) := by
  obtain ⟨h1, h2, h3, h4⟩ := hvalid
  have h2' : ¬ opts.Protocols.length = 0 := by simpa using h2
  have h4' : ¬ (!opts.NoUrlArgNecessary && !strContains opts.Exec "%u"
      && !strContains opts.Exec "%U") = true := by
    rcases h4 with h4 | h4 | h4 <;> simp [h4]
  have hdoc := WriteTo_Empty_of_AllMimetypes opts _ hall
  simp only [appsDir, entryPath, linuxIdToDesktopFilename] at hmk hcr hwr ⊢
  simp only [List.cons_append, List.nil_append] at hbind ⊢
  unfold RegisterLinux
  rw [if_neg h1, if_neg h2', if_neg h3, if_neg h4']
  cases hd : w.dirs (pathJoin [home, ".local", "share", "applications"]) <;>
    simp [hhome, mkdirAll, create, writeFile, runCommand, hd, hmk, hcr, hwr, hall, hdoc,
      hbind, linuxIdToDesktopFilename]

/-- Witness of C8: `app` with the protocol `a` on a host whose `xdg-mime` fails. -/
theorem RegisterLinux_binder_failure_keeps_entry_witness :
    (RegisterLinux brokenBinderHost "app" (sampleOptions ["a"] []) freshWorld).2
      = .err (.host 1) ∧
    (RegisterLinux brokenBinderHost "app" (sampleOptions ["a"] []) freshWorld).1.cmds =
      [⟨"xdg-mime", ["default", "app-opener.desktop", "x-scheme-handler/a"]⟩] ∧
    (RegisterLinux brokenBinderHost "app" (sampleOptions ["a"] []) freshWorld).1.files
      "/home/u/.local/share/applications/app-opener.desktop"
      = some (.ini ((sampleOptions ["a"] []).WriteTo IniFile.Empty).1) :=
  RegisterLinux_binder_failure_keeps_entry brokenBinderHost "app" (sampleOptions ["a"] [])
    freshWorld "/home/u" ["x-scheme-handler/a"] (.host 1) (by unfold Valid; decide)
    rfl rfl rfl (by decide) rfl rfl

/-- C9 (amended): every `[Desktop Action <ActionName>]` section that
`LinuxOptions.WriteTo` adds to the empty document is either the quick-preview section
with the keys `Name`, `Exec`, `TryExec`, `NoDisplay` or the open-with-terminal section
with the keys `Name`, `Exec`, each carrying the value of its secondary action; so it
contains no key other than `Name`, `Exec`, `TryExec` and `NoDisplay`. -/
theorem WriteTo_action_sections (opts : LinuxOptions) (s : Section)
    (hs : s ∈ actionSections (opts.WriteTo IniFile.Empty).1) :
    (s = ⟨"Desktop Action QuickPreview",
          [⟨"Name", opts.OpenQuickPreview.Name⟩, ⟨"Exec", opts.OpenQuickPreview.Exec⟩,
           ⟨"TryExec", opts.OpenQuickPreview.TryExec⟩,
           ⟨"NoDisplay", sprintBool opts.OpenQuickPreview.NoDisplay⟩]⟩ ∨
     s = ⟨"Desktop Action OpenWithTerminal",
          [⟨"Name", opts.OpenWithTerminal.Name⟩, ⟨"Exec", opts.OpenWithTerminal.Exec⟩]⟩) ∧
    ∀ k ∈ s.Keys, k.Name ∈ ["Name", "Exec", "TryExec", "NoDisplay"] := by
  cases hall : opts.AllMimetypes with
  | none =>
    rw [(WriteTo_Empty_of_panic opts hall).2] at hs
    cases hs
  | some all =>
    rw [WriteTo_Empty_of_AllMimetypes opts all hall] at hs
    have hsec : actionSections (entryDocument opts all) =
        [⟨"Desktop Action QuickPreview",
          [⟨"Name", opts.OpenQuickPreview.Name⟩, ⟨"Exec", opts.OpenQuickPreview.Exec⟩,
           ⟨"TryExec", opts.OpenQuickPreview.TryExec⟩,
           ⟨"NoDisplay", sprintBool opts.OpenQuickPreview.NoDisplay⟩]⟩,
         ⟨"Desktop Action OpenWithTerminal",
          [⟨"Name", opts.OpenWithTerminal.Name⟩, ⟨"Exec", opts.OpenWithTerminal.Exec⟩]⟩] :=
      rfl
    rw [hsec] at hs
    simp only [List.mem_cons, List.mem_singleton, List.not_mem_nil, or_false] at hs
    rcases hs with hs | hs <;> subst hs <;> simp

/-- Witness of C9 (amended): the quick-preview section of the sample options. -/
theorem WriteTo_action_sections_witness :
    (⟨"Desktop Action QuickPreview",
        [⟨"Name", "Preview"⟩, ⟨"Exec", "run --preview %u"⟩, ⟨"TryExec", "run"⟩,
         ⟨"NoDisplay", "true"⟩]⟩ : Section)
      ∈ actionSections ((sampleOptions ["a"] []).WriteTo IniFile.Empty).1 ∧
    (((⟨"Desktop Action QuickPreview",
        [⟨"Name", "Preview"⟩, ⟨"Exec", "run --preview %u"⟩, ⟨"TryExec", "run"⟩,
         ⟨"NoDisplay", "true"⟩]⟩ : Section)
        = ⟨"Desktop Action QuickPreview",
            [⟨"Name", "Preview"⟩, ⟨"Exec", "run --preview %u"⟩, ⟨"TryExec", "run"⟩,
             ⟨"NoDisplay", "true"⟩]⟩ ∨
      (⟨"Desktop Action QuickPreview",
        [⟨"Name", "Preview"⟩, ⟨"Exec", "run --preview %u"⟩, ⟨"TryExec", "run"⟩,
         ⟨"NoDisplay", "true"⟩]⟩ : Section)
        = ⟨"Desktop Action OpenWithTerminal",
            [⟨"Name", "Open in terminal"⟩, ⟨"Exec", "run --terminal %u"⟩]⟩) ∧
     ∀ k ∈ [(⟨"Name", "Preview"⟩ : Key), ⟨"Exec", "run --preview %u"⟩, ⟨"TryExec", "run"⟩,
        ⟨"NoDisplay", "true"⟩], k.Name ∈ ["Name", "Exec", "TryExec", "NoDisplay"]) :=
  ⟨by decide,
    WriteTo_action_sections (sampleOptions ["a"] [])
      ⟨"Desktop Action QuickPreview",
        [⟨"Name", "Preview"⟩, ⟨"Exec", "run --preview %u"⟩, ⟨"TryExec", "run"⟩,
         ⟨"NoDisplay", "true"⟩]⟩ (by decide)⟩

/-- C3 (code defect): `UnregisterLinux` loads the list with the default options of
ini.v1, which cut a value at its first `;`, and compares `kv.String()`, which expands
`%(name)s`.  On the list `separatedMimeapps` the call returns no error and the
rewritten `[Default Applications]` section keeps `text/html` with the value
`firefox.desktop` instead of `firefox.desktop;chromium.desktop`, and has lost
`x-scheme-handler/b`, whose value `app-opener.desktop;other.desktop` is not
`app-opener.desktop`.  On the list `variableMimeapps` it has lost `text/plain`, whose
value `%(x-scheme-handler/a)s` is not `app-opener.desktop`. -/
theorem UnregisterLinux_alters_other_defaults :
    (UnregisterLinux quietHost "app" (registeredWorld (some (.ini separatedMimeapps)))).2
      = .nil ∧
    (((UnregisterLinux quietHost "app"
        (registeredWorld (some (.ini separatedMimeapps)))).1.document
          "/home/u/.config/mimeapps.list").bind
        (fun d => (d.GetSection "Default Applications").1))
      = some ⟨"Default Applications", [⟨"text/html", "firefox.desktop"⟩]⟩ ∧
    (UnregisterLinux quietHost "app" (registeredWorld (some (.ini variableMimeapps)))).2
      = .nil ∧
    (((UnregisterLinux quietHost "app"
        (registeredWorld (some (.ini variableMimeapps)))).1.document
          "/home/u/.config/mimeapps.list").bind
        (fun d => (d.GetSection "Default Applications").1))
      = some ⟨"Default Applications", []⟩ := by
  decide

/-- What the rewrite does keep: when the list file loads as a document whose
`[Default Applications]` section is `sec` (with distinct key names) and
`UnregisterLinux` returns no error, the document written back has in that section
exactly the keys of `sec` for which `kv.String()` is not `<id>-opener.desktop`, with
the values that were loaded and in their order. -/
theorem UnregisterLinux_rewrites_loaded_section (h : Host) (id : String) (w : World)
    (home : String) (lines doc : IniFile) (sec : Section)
    (hhome : w.home = some home)
    (hlist : w.files (mimeappsPath home) = some (.ini lines))
    (hload : loadDocument lines = some doc)
    (hsec : (doc.GetSection "Default Applications").1 = some sec)
    (hnd : (sec.Keys.map Key.Name).Nodup)
    (hret : (UnregisterLinux h id w).2 = .nil) :
    (((UnregisterLinux h id w).1.document (mimeappsPath home)).bind
        (fun d => (d.GetSection "Default Applications").1))
      = some ⟨sec.Name, sec.Keys.filter
          (fun k => decide (k.StringOf doc sec ≠ linuxIdToDesktopFilename id))⟩ := by
  have hlen : "Default Applications".length ≠ 0 := by decide
  simp only [mimeappsPath] at hlist ⊢
  unfold UnregisterLinux at hret ⊢
  simp only [hhome] at hret ⊢
  cases hmk : mkdirAll h w (pathJoin [home, ".local", "share", "applications"]) 0o666 with
  | error err => simp [hmk] at hret
  | ok w1 =>
    obtain ⟨-, hf1, -⟩ := mkdirAll_ok h w w1 _ _ hmk
    simp only [hmk] at hret ⊢
    cases hrm : remove h w1 (pathJoin [pathJoin [home, ".local", "share", "applications"],
        linuxIdToDesktopFilename id]) with
    | error err => simp [hrm] at hret
    | ok w2 =>
      obtain ⟨hf2, -⟩ := remove_ok h w1 w2 _ hrm
      simp only [hrm] at hret ⊢
      cases hld : iniLoad h w2 (pathJoin [home, ".config", "mimeapps.list"]) with
      | none => simp [hld] at hret
      | some d =>
        obtain ⟨lines', hfile, hload'⟩ := iniLoad_some h w2 _ d hld
        have hd : d = doc := by
          rw [hf2, hf1] at hfile
          replace hfile : (if pathJoin [home, ".config", "mimeapps.list"]
              = pathJoin [pathJoin [home, ".local", "share", "applications"],
                  linuxIdToDesktopFilename id] then none
              else w.files (pathJoin [home, ".config", "mimeapps.list"]))
              = some (.ini lines') := hfile
          by_cases hp : pathJoin [home, ".config", "mimeapps.list"]
              = pathJoin [pathJoin [home, ".local", "share", "applications"],
                  linuxIdToDesktopFilename id]
          · simp [hp] at hfile
          · rw [if_neg hp, hlist] at hfile
            cases hfile
            rw [hload] at hload'
            cases hload'
            rfl
        subst hd
        have hnot := GetSection_not_delimiter d "Default Applications"
        simp only [hld, hnot, hsec] at hret ⊢
        cases hcr : create h w2 (pathJoin [home, ".config", "mimeapps.list"]) with
        | error err => simp [hcr] at hret
        | ok w3 =>
          simp only [hcr] at hret ⊢
          cases hwr : writeFile h w3 (pathJoin [home, ".config", "mimeapps.list"])
              ((collectToBeDeleted d sec (linuxIdToDesktopFilename id)).foldl
                (fun f key => f.DeleteKey "Default Applications" key) d) with
          | error err => simp [hwr] at hret
          | ok w4 =>
            obtain ⟨hf4, -⟩ := writeFile_ok h w3 w4 _ _ hwr
            have hfile4 : w4.files (pathJoin [home, ".config", "mimeapps.list"])
                = some (.ini ((collectToBeDeleted d sec (linuxIdToDesktopFilename id)).foldl
                    (fun f key => f.DeleteKey "Default Applications" key) d)) := by
              rw [hf4]
              exact if_pos rfl
            rw [GetSection_fst d _ hlen] at hsec
            simp only [hwr, Bool.false_eq_true, if_false, World.document, hfile4]
            show (IniFile.GetSection _ "Default Applications").1 = _
            rw [GetSection_fst _ _ hlen, foldl_DeleteKey]
            show List.find? _ (modifySection _ "Default Applications" d.Sections) = _
            rw [find_modifySection
              (fun s => ⟨s.Name, (collectToBeDeleted d sec
                (linuxIdToDesktopFilename id)).foldl deleteKey s.Keys⟩)
              "Default Applications" (fun _ => rfl), hsec, Option.map_some',
              delete_collected _ _ _ hnd]

end Protocolreg
